import Mathlib

/-!
Verification of the vc-monitor repository (src/Monitor.py, src/Tree.py)
against its natural-language specification.

The development shallowly embeds the two source files:
* `Monitor._build_query` and the reshaping loop of
  `Monitor.latest_stats_by_specs` (src/Monitor.py) become pure Lean
  functions over an explicit `MonitorState` record holding the
  capability flags the Python object caches on `self`;
* `Node` / `DCTree` (src/Tree.py) become explicit state passing: the
  mutable traversal fields of the node objects (`visited`,
  `span_parent`, `distance`) are a `TravState` record of total maps
  keyed by node id, and the breadth-first generator `DCTree._bfs`
  becomes a fuel-indexed worklist loop whose fuel is proved sufficient
  for any finite universe of nodes.

Python truthiness matters in `_build_query` (`if not (max_samples or
start)`), so option values are tested with an explicit `truthy`
function rather than with `Option.isSome`.
-/

namespace VCMonitor

/-! ## Query specification builder (src/Monitor.py, `_build_query`) -/

/-- The `Monitor` fields consulted by `_build_query`: capability flags and
the refresh rate obtained once by `query_provider`, and the enabled
historical sampling periods collected by `manage_perf`. -/
structure MonitorState where
  current_supported : Bool
  summary_supported : Bool
  refresh_rate : Int
  historical_intervals : List Int
deriving Repr, DecidableEq

/-- The exceptions `_build_query` raises, by the spec's names:
`TypeError` = missing time bounds, `ValueError` on format = invalid
format, `ValueError` on interval = invalid interval (carrying the list
of allowed values the message names), `RuntimeError` = stats
unavailable. -/
inductive BuildError where
  | missingTimeBounds
  | invalidFormat
  | invalidInterval (available : List Int)
  | statsUnavailable
deriving Repr, DecidableEq

/-- The fields of the `vim.PerformanceManager.QuerySpec` object
`_build_query` fills in. `metricId` is the list of
(counterId, instance) pairs. -/
structure QuerySpec (α : Type) where
  entity : α
  metricId : List (Int × String)
  intervalId : Int
  startTime : Option Int
  endTime : Option Int
  maxSample : Option Int
  format : String
deriving Repr, DecidableEq

/-- Python truthiness of an optional integer argument: `None` and `0`
are falsy, every other int is truthy. -/
def truthy : Option Int → Bool
  | none => false
  | some v => v != 0

/-- The capability-driven interval resolution of `_build_query`
(src/Monitor.py lines 329-340): the `if self.current_supported / elif
self.summary_supported / else` chain, returning the resolved interval
or the exception raised.  In the summary branch Python evaluates
`interval not in self.historical_intervals` with `interval = None`
possible; `None` is never a member of a list of ints, so an
unspecified interval fails there. -/
def resolve_interval (st : MonitorState) (interval : Option Int) :
    Except BuildError Int :=
  if st.current_supported then
    match interval with
    | none => .ok st.refresh_rate
    | some itv =>
      if itv != st.refresh_rate && !(st.historical_intervals.contains itv) then
        .error (.invalidInterval st.historical_intervals)
      else
        .ok itv
  else if st.summary_supported then
    match interval with
    | some itv =>
      if st.historical_intervals.contains itv then .ok itv
      else .error (.invalidInterval st.historical_intervals)
    | none => .error (.invalidInterval st.historical_intervals)
  else
    .error .statsUnavailable

/-- `Monitor._build_query` (src/Monitor.py lines 311-357).  `start` and
`end_` model `datetime` arguments (a `datetime` object is always
truthy, so presence of `start` is `Option.isSome`); `max_samples` is an
optional int tested by Python truthiness.  The returned `Bool` records
whether the `max_samples`-ignored `RuntimeWarning` was emitted. -/
def build_query {α : Type} (st : MonitorState) (entity : α)
    (counter_ids : Option (List Int)) (instances : Option (List String))
    (interval : Option Int) (start : Option Int) (end_ : Option Int)
    (max_samples : Option Int) (fmt : String) :
    Except BuildError (QuerySpec α × Bool) :=
  if !(truthy max_samples || start.isSome) then
    .error .missingTimeBounds
  else if !(fmt == "csv" || fmt == "normal") then
    .error .invalidFormat
  else
    match resolve_interval st interval with
    | .error e => .error e
    | .ok itv =>
      let warn := st.historical_intervals.contains itv && truthy max_samples
      let cids := counter_ids.getD []
      let insts := instances.getD ["*"]
      .ok ({ entity := entity
             metricId := cids.flatMap fun c => insts.map fun i => (c, i)
             intervalId := itv
             startTime := start
             endTime := end_
             maxSample := max_samples
             format := fmt }, warn)

/-- A concrete monitor state matching the spec's end-to-end scenario:
real-time supported, refresh rate 20, the vCenter default historical
intervals. -/
def st0 : MonitorState :=
  { current_supported := true
    summary_supported := true
    refresh_rate := 20
    historical_intervals := [300, 1800, 7200, 86400] }

/-- A monitor state supporting only historical aggregates. -/
def stSummary : MonitorState :=
  { current_supported := false
    summary_supported := true
    refresh_rate := -1
    historical_intervals := [300, 1800, 7200, 86400] }

/-- A monitor state supporting neither kind of statistics. -/
def stNone : MonitorState :=
  { current_supported := false
    summary_supported := false
    refresh_rate := -1
    historical_intervals := [300, 1800, 7200, 86400] }

theorem truthy_eq_false_iff (m : Option Int) :
    truthy m = false ↔ m = none ∨ m = some 0 := by
  cases m with
  | none => simp [truthy]
  | some v => simp [truthy]

theorem truthy_eq_true_iff (m : Option Int) :
    truthy m = true ↔ ∃ v, m = some v ∧ v ≠ 0 := by
  cases m with
  | none => simp [truthy]
  | some v => simp [truthy]

/-- `resolve_interval` raises only interval/availability errors, never
the missing-time-bounds one. -/
theorem resolve_interval_ne_missing (st : MonitorState) (interval : Option Int)
    (e : BuildError) (h : resolve_interval st interval = .error e) :
    e ≠ .missingTimeBounds := by
  unfold resolve_interval at h
  repeat' split at h
  all_goals (intro hcon; rw [hcon] at h; exact absurd h (by simp))

/-- Once the time-bounds check has passed, no later branch of
`build_query` produces the missing-time-bounds error. -/
theorem build_query_ne_missing {α : Type} (st : MonitorState) (entity : α)
    (counter_ids : Option (List Int)) (instances : Option (List String))
    (interval : Option Int) (start end_ max_samples : Option Int) (fmt : String)
    (hb : (truthy max_samples || start.isSome) = true) :
    build_query st entity counter_ids instances interval start end_ max_samples fmt ≠
      .error .missingTimeBounds := by
  unfold build_query
  rw [hb]
  simp only [Bool.not_true, Bool.false_eq_true, if_false]
  cases hf : !(fmt == "csv" || fmt == "normal") with
  | true => simp
  | false =>
    simp only [Bool.false_eq_true, if_false]
    cases hr : resolve_interval st interval with
    | error e => simp [resolve_interval_ne_missing st interval e hr]
    | ok itv => simp

theorem fmt_beq_of_valid {fmt : String} (hf : fmt = "csv" ∨ fmt = "normal") :
    (fmt == "csv" || fmt == "normal") = true := by
  rcases hf with rfl | rfl <;> simp

/-- With the time-bounds and format checks passed, `build_query`
propagates an interval-resolution error unchanged. -/
theorem build_query_error_of_resolve {α : Type} (st : MonitorState) (entity : α)
    (counter_ids : Option (List Int)) (instances : Option (List String))
    (interval : Option Int) (start end_ max_samples : Option Int) (fmt : String)
    (hb : (truthy max_samples || start.isSome) = true)
    (hfB : (fmt == "csv" || fmt == "normal") = true)
    (er : BuildError) (hr : resolve_interval st interval = .error er) :
    build_query st entity counter_ids instances interval start end_ max_samples fmt
      = .error er := by
  unfold build_query
  rw [hb, hfB, hr]
  simp

/-- With the time-bounds and format checks passed and the interval
resolved, `build_query` returns the query specification, warning
exactly when the resolved interval is historical and `max_samples` is
truthy. -/
theorem build_query_ok_of_resolve {α : Type} (st : MonitorState) (entity : α)
    (counter_ids : Option (List Int)) (instances : Option (List String))
    (interval : Option Int) (start end_ max_samples : Option Int) (fmt : String)
    (hb : (truthy max_samples || start.isSome) = true)
    (hfB : (fmt == "csv" || fmt == "normal") = true)
    (itv : Int) (hr : resolve_interval st interval = .ok itv) :
    build_query st entity counter_ids instances interval start end_ max_samples fmt
      = .ok ({ entity := entity
               metricId := (counter_ids.getD []).flatMap fun c =>
                 (instances.getD ["*"]).map fun i => (c, i)
               intervalId := itv
               startTime := start
               endTime := end_
               maxSample := max_samples
               format := fmt },
             st.historical_intervals.contains itv && truthy max_samples) := by
  unfold build_query
  rw [hb, hfB, hr]
  simp

theorem resolve_interval_current_none {st : MonitorState}
    (hc : st.current_supported = true) :
    resolve_interval st none = .ok st.refresh_rate := by
  simp [resolve_interval, hc]

theorem resolve_interval_current_invalid {st : MonitorState} {itv : Int}
    (hc : st.current_supported = true) (h1 : itv ≠ st.refresh_rate)
    (h2 : itv ∉ st.historical_intervals) :
    resolve_interval st (some itv) = .error (.invalidInterval st.historical_intervals) := by
  have hcont : st.historical_intervals.contains itv = false := by
    simp [h2]
  simp [resolve_interval, hc, hcont, h1, h2]

theorem resolve_interval_summary_invalid {st : MonitorState} {interval : Option Int}
    (hc : st.current_supported = false) (hs : st.summary_supported = true)
    (h : ∀ itv : Int, interval = some itv → itv ∉ st.historical_intervals) :
    resolve_interval st interval = .error (.invalidInterval st.historical_intervals) := by
  cases interval with
  | none => simp [resolve_interval, hc, hs]
  | some itv =>
    have hcont : st.historical_intervals.contains itv = false := by
      simp [h itv rfl]
    simp [resolve_interval, hc, hs, hcont, h itv rfl]

theorem resolve_interval_unavailable {st : MonitorState} {interval : Option Int}
    (hc : st.current_supported = false) (hs : st.summary_supported = false) :
    resolve_interval st interval = .error .statsUnavailable := by
  simp [resolve_interval, hc, hs]

theorem resolve_interval_ok_of_mem {st : MonitorState} {itv : Int}
    (hcap : st.current_supported = true ∨ st.summary_supported = true)
    (hmem : itv ∈ st.historical_intervals) :
    resolve_interval st (some itv) = .ok itv := by
  have hcont : st.historical_intervals.contains itv = true := by
    simp [hmem]
  cases hc : st.current_supported with
  | true => simp [resolve_interval, hc, hcont, hmem]
  | false =>
    have hs : st.summary_supported = true := by
      rcases hcap with h | h
      · rw [hc] at h; cases h
      · exact h
    simp [resolve_interval, hc, hs, hcont, hmem]

/-- C1: build_query resolves the interval according to the capability
flags, in order: if `current_supported`, an unspecified interval
defaults to the provider's refresh rate, and an explicit interval that
is neither the refresh rate nor an enabled historical interval fails
with the invalid-interval error naming the allowed values; else if
`summary_supported`, any interval (including an unspecified one) that
is not an enabled historical interval fails with the invalid-interval
error; else the call fails with the stats-unavailable error and no
query is built. -/
theorem build_query_capability_cases {α : Type} (st : MonitorState) (entity : α)
    (counter_ids : Option (List Int)) (instances : Option (List String))
    (start end_ max_samples : Option Int) (fmt : String)
    (hb : (truthy max_samples || start.isSome) = true)
    (hf : fmt = "csv" ∨ fmt = "normal") :
    (st.current_supported = true →
      (∃ q w, build_query st entity counter_ids instances none start end_ max_samples fmt
          = .ok (q, w) ∧ q.intervalId = st.refresh_rate) ∧
      (∀ itv : Int, itv ≠ st.refresh_rate → itv ∉ st.historical_intervals →
        build_query st entity counter_ids instances (some itv) start end_ max_samples fmt
          = .error (.invalidInterval st.historical_intervals))) ∧
    (st.current_supported = false → st.summary_supported = true →
      ∀ interval : Option Int,
        (∀ itv : Int, interval = some itv → itv ∉ st.historical_intervals) →
        build_query st entity counter_ids instances interval start end_ max_samples fmt
          = .error (.invalidInterval st.historical_intervals)) ∧
    (st.current_supported = false → st.summary_supported = false →
      ∀ interval : Option Int,
        build_query st entity counter_ids instances interval start end_ max_samples fmt
          = .error .statsUnavailable) := by
  have hfB := fmt_beq_of_valid hf
  refine ⟨fun hc => ⟨?_, ?_⟩, fun hc hs interval hno => ?_, fun hc hs interval => ?_⟩
  · exact ⟨_, _,
      build_query_ok_of_resolve st entity counter_ids instances none start end_
        max_samples fmt hb hfB st.refresh_rate (resolve_interval_current_none hc), rfl⟩
  · intro itv h1 h2
    exact build_query_error_of_resolve st entity counter_ids instances (some itv)
      start end_ max_samples fmt hb hfB _ (resolve_interval_current_invalid hc h1 h2)
  · exact build_query_error_of_resolve st entity counter_ids instances interval
      start end_ max_samples fmt hb hfB _ (resolve_interval_summary_invalid hc hs hno)
  · exact build_query_error_of_resolve st entity counter_ids instances interval
      start end_ max_samples fmt hb hfB _ (resolve_interval_unavailable hc hs)

/-- C1 witness: with the scenario state (real-time supported, refresh
rate 20) and `max_samples = 1`, an unspecified interval resolves to
the refresh rate. -/
theorem build_query_capability_cases_witness :
    ∃ q w, build_query st0 (0 : Nat) none none none none none (some 1) "normal"
        = .ok (q, w) ∧ q.intervalId = st0.refresh_rate :=
  ((build_query_capability_cases st0 (0 : Nat) none none none none (some 1) "normal"
      (by decide) (Or.inr rfl)).1 rfl).1

/-- C5 counterexample: `max_samples = 0` is a supplied value (`isSome`),
yet with `start` absent the call still fails with the
missing-time-bounds error, refuting "when at least one of start or
max_samples is supplied, this error is not raised". -/
theorem build_query_bounds_claim_cex :
    (some (0 : Int)).isSome = true ∧
    build_query st0 (0 : Nat) none none none none none (some 0) "normal"
      = .error .missingTimeBounds :=
  ⟨rfl, rfl⟩

/-- C5 (amended): build_query fails with the missing-time-bounds error
exactly when `start` is absent and `max_samples` is absent or equal to
the falsy integer 0; presence is measured by Python truthiness, not by
whether an argument was supplied. -/
theorem build_query_missing_bounds_iff {α : Type} (st : MonitorState) (entity : α)
    (counter_ids : Option (List Int)) (instances : Option (List String))
    (interval : Option Int) (start end_ max_samples : Option Int) (fmt : String) :
    build_query st entity counter_ids instances interval start end_ max_samples fmt
        = .error .missingTimeBounds ↔
      start = none ∧ (max_samples = none ∨ max_samples = some 0) := by
  rcases start with _ | t
  · rcases max_samples with _ | v
    · simp [build_query, truthy]
    · by_cases hv : v = 0
      · subst hv
        simp [build_query, truthy]
      · have hb : (truthy (some v) || (none : Option Int).isSome) = true := by
          simp [truthy, hv]
        simp [build_query_ne_missing st entity counter_ids instances interval
          none end_ (some v) fmt hb, hv]
  · have hb : (truthy max_samples || (some t).isSome) = true := by simp
    simp [build_query_ne_missing st entity counter_ids instances interval
      (some t) end_ max_samples fmt hb]

/-- C9: a call with `max_samples` equal to the integer 0 and `start`
absent fails with the missing-time-bounds error even though
`max_samples` was explicitly supplied: the presence check tests Python
truthiness. -/
theorem build_query_zero_max_samples_missing {α : Type} (st : MonitorState)
    (entity : α) (counter_ids : Option (List Int)) (instances : Option (List String))
    (interval : Option Int) (end_ : Option Int) (fmt : String) :
    build_query st entity counter_ids instances interval none end_ (some 0) fmt
      = .error .missingTimeBounds := rfl

/-- C7 counterexample: with interval 7200 (a historical interval), a
supplied `max_samples = 0` and a supplied start time, the call
succeeds but the max-samples-ignored warning is NOT emitted (the
warning condition tests truthiness, and 0 is falsy), refuting the
claim that the warning fires whenever the resolved interval is
historical and `max_samples` was supplied. -/
theorem build_query_warning_claim_cex :
    (7200 : Int) ∈ st0.historical_intervals ∧
    (some (0 : Int)).isSome = true ∧
    build_query st0 (0 : Nat) none none (some 7200) (some 0) none (some 0) "normal"
      = .ok ({ entity := 0
               metricId := []
               intervalId := 7200
               startTime := some 0
               endTime := none
               maxSample := some 0
               format := "normal" }, false) :=
  ⟨by decide, rfl, by rfl⟩

/-- C7 (amended): when the requested interval is an enabled historical
interval and `max_samples` is supplied with a truthy (nonzero) value,
build_query emits the non-fatal max-samples-ignored warning and still
succeeds, returning the query specification with that interval — the
advisory never aborts the call. -/
theorem build_query_hist_max_samples_warns {α : Type} (st : MonitorState) (entity : α)
    (counter_ids : Option (List Int)) (instances : Option (List String))
    (itv : Int) (start end_ : Option Int) (v : Int) (fmt : String)
    (hcap : st.current_supported = true ∨ st.summary_supported = true)
    (hmem : itv ∈ st.historical_intervals)
    (hv : v ≠ 0)
    (hf : fmt = "csv" ∨ fmt = "normal") :
    ∃ q, build_query st entity counter_ids instances (some itv) start end_ (some v) fmt
        = .ok (q, true) ∧ q.intervalId = itv := by
  have hb : (truthy (some v) || start.isSome) = true := by simp [truthy, hv]
  have hcont : st.historical_intervals.contains itv = true := by simp [hmem]
  have hw : (st.historical_intervals.contains itv && truthy (some v)) = true := by
    simp [hmem, truthy, hv]
  refine ⟨{ entity := entity
            metricId := (counter_ids.getD []).flatMap fun c =>
              (instances.getD ["*"]).map fun i => (c, i)
            intervalId := itv
            startTime := start
            endTime := end_
            maxSample := some v
            format := fmt }, ?_, rfl⟩
  rw [build_query_ok_of_resolve st entity counter_ids instances (some itv) start end_
    (some v) fmt hb (fmt_beq_of_valid hf) itv (resolve_interval_ok_of_mem hcap hmem), hw]

/-- C7 witness: the spec's scenario, interval 7200 with
`max_samples = 1`, succeeds with the warning emitted. -/
theorem build_query_hist_max_samples_warns_witness :
    ∃ q, build_query st0 (0 : Nat) (some [6]) (some ["*"]) (some 7200) none none
        (some 1) "normal" = .ok (q, true) ∧ q.intervalId = 7200 :=
  build_query_hist_max_samples_warns st0 (0 : Nat) (some [6]) (some ["*"]) 7200
    none none 1 "normal" (Or.inl rfl) (by decide) (by decide) (Or.inr rfl)

/-- C10: query validation is entity-independent — the entity argument
only ever lands in the `entity` field of the returned specification,
so two calls differing only in the entity either fail with the same
error or succeed with specifications differing only in that field (and
the same warning flag). -/
theorem build_query_entity_independent {α : Type} (st : MonitorState) (e1 e2 : α)
    (counter_ids : Option (List Int)) (instances : Option (List String))
    (interval : Option Int) (start end_ max_samples : Option Int) (fmt : String) :
    build_query st e2 counter_ids instances interval start end_ max_samples fmt
      = (build_query st e1 counter_ids instances interval start end_ max_samples fmt).map
          (fun p => ({ p.1 with entity := e2 }, p.2)) := by
  unfold build_query
  cases hb : !(truthy max_samples || start.isSome)
  · cases hf : !(fmt == "csv" || fmt == "normal")
    · cases hr : resolve_interval st interval
      · simp [Except.map]
      · simp [Except.map]
    · simp [Except.map]
  · simp [Except.map]

/-! ## Result reshaping (src/Monitor.py, `latest_stats_by_specs`) -/

/-- One entry of a provider result row's `value` list: the values of
one (counter id, instance) pair, parallel to the row's `sampleInfo`. -/
structure PerfMetricSeries where
  counterId : Int
  instance_ : String
  value : List Int
deriving Repr, DecidableEq

/-- One row of a `QueryPerf` provider result: sample timestamps and one
value series per (counter id, instance) pair. -/
structure PerfEntityMetric where
  sampleInfo : List Int
  value : List PerfMetricSeries
deriving Repr, DecidableEq

/-- One record of the reshaped tabular output of
`latest_stats_by_specs`. -/
structure StatRow where
  key : Int
  instance_ : String
  timestamp : Int
  value : Int
  unit : String
  name : String
deriving Repr, DecidableEq

/-- The reshaping loop of `Monitor.latest_stats_by_specs`
(src/Monitor.py lines 395-407): for each result row, for each value
series, for each sample index, append one record of (key, instance,
timestamp, value, unit, name); the source pairs `sample_info[i]` with
`val[i]` under its documented invariant `len(sample_info) == len(val)`
(here a zip), looks the unit up in `all_counters`, sorts by counter
key and resets the index, so the output's row index is its dense
zero-based list position.  `entity_name` is `entity.name`, assigned to
every row. -/
def latest_stats_by_specs (all_counters : Int → String)
    (results : List PerfEntityMetric) (entity_name : String) : List StatRow :=
  let rows := results.flatMap fun r =>
    r.value.flatMap fun v =>
      (r.sampleInfo.zip v.value).map fun p =>
        { key := v.counterId
          instance_ := v.instance_
          timestamp := p.1
          value := p.2
          unit := all_counters v.counterId
          name := entity_name }
  rows.mergeSort fun a b => decide (a.key ≤ b.key)

/-- C8: reshaping a provider result with N counters × M instances × K
timestamps (parallel timestamp and value arrays, one series per
counter/instance pair) yields exactly N*M*K rows of (counter id,
instance, timestamp, value, unit, entity name), sorted by counter id,
with a dense zero-based row index. -/
theorem latest_stats_shape (all_counters : Int → String) (r : PerfEntityMetric)
    (entity_name : String) (N M K : Nat)
    (hv : r.value.length = N * M)
    (hs : r.sampleInfo.length = K)
    (hlen : ∀ v ∈ r.value, v.value.length = K) :
    (latest_stats_by_specs all_counters [r] entity_name).length = N * M * K ∧
    List.Sorted (fun a b : StatRow => a.key ≤ b.key)
      (latest_stats_by_specs all_counters [r] entity_name) ∧
    (latest_stats_by_specs all_counters [r] entity_name).enum.map Prod.fst
      = List.range (N * M * K) := by
  have hlen1 : (latest_stats_by_specs all_counters [r] entity_name).length
      = N * M * K := by
    unfold latest_stats_by_specs
    rw [List.length_mergeSort]
    simp only [List.flatMap_cons, List.flatMap_nil, List.append_nil]
    rw [List.length_flatMap]
    have hconst : ∀ x ∈ List.map (List.length ∘ fun v =>
        (r.sampleInfo.zip v.value).map fun p =>
          ({ key := v.counterId, instance_ := v.instance_, timestamp := p.1,
             value := p.2, unit := all_counters v.counterId,
             name := entity_name } : StatRow)) r.value, x = K := by
      intro x hx
      rcases List.mem_map.mp hx with ⟨v, hvm, rfl⟩
      simp [List.length_zip, hs, hlen v hvm]
    rw [List.sum_eq_card_nsmul _ K hconst, smul_eq_mul, List.length_map, hv]
  refine ⟨hlen1, ?_, ?_⟩
  · have hsorted := @List.sorted_mergeSort StatRow
      (fun a b : StatRow => decide (a.key ≤ b.key))
      (fun a b c hab hbc => by
        simp only [decide_eq_true_eq] at *
        exact le_trans hab hbc)
      (fun a b => by
        simp only [Bool.or_eq_true, decide_eq_true_eq]
        exact le_total a.key b.key)
      ([r].flatMap fun rr =>
        rr.value.flatMap fun v =>
          (rr.sampleInfo.zip v.value).map fun p =>
            { key := v.counterId
              instance_ := v.instance_
              timestamp := p.1
              value := p.2
              unit := all_counters v.counterId
              name := entity_name })
    exact hsorted.imp fun h => by simpa using h
  · rw [List.enum_map_fst, hlen1]

/-- Concrete provider result used by the C8 witness: two counters, one
instance each, two timestamps. -/
def perfW : PerfEntityMetric :=
  { sampleInfo := [10, 20]
    value := [ { counterId := 5, instance_ := "a", value := [1, 2] },
               { counterId := 3, instance_ := "", value := [7, 8] } ] }

/-- C8 witness: the reshaping theorem at N = 2 counters, M = 1
instance, K = 2 timestamps. -/
theorem latest_stats_shape_witness :
    (latest_stats_by_specs (fun _ => "KB") [perfW] "vm1").length = 2 * 1 * 2 ∧
    List.Sorted (fun a b : StatRow => a.key ≤ b.key)
      (latest_stats_by_specs (fun _ => "KB") [perfW] "vm1") ∧
    (latest_stats_by_specs (fun _ => "KB") [perfW] "vm1").enum.map Prod.fst
      = List.range (2 * 1 * 2) :=
  latest_stats_shape (fun _ => "KB") perfW "vm1" 2 1 2 (by decide) (by decide)
    (by decide)

/-! ## Hierarchy model (src/Tree.py)

Nodes are identified by their integer id (`Node.id`, assigned from the
process-wide counter).  The child edges (`Node.children`) are read but
never written by the traversals, so they are a fixed map
`children : Nat → List Nat`; the three fields the traversals mutate
(`visited`, `span_parent`, `distance`) form the explicit state
`TravState`. -/

/-- The mutable traversal fields of all `Node` objects, keyed by node
id. -/
structure TravState where
  visited : Nat → Bool
  span_parent : Nat → Option Nat
  distance : Nat → Nat

/-- The initial traversal fields `Node.__init__` assigns: not visited,
no spanning-tree parent, distance 0. -/
def travInit : TravState :=
  { visited := fun _ => false
    span_parent := fun _ => none
    distance := fun _ => 0 }

/-- The body of the `for c in u.children` loop of `DCTree._bfs`
(src/Tree.py lines 83-88) acting on one unvisited child `c` dequeued
from node `u`: mark it visited, record its spanning-tree parent and
its distance. -/
def markChild (s : TravState) (u c : Nat) : TravState :=
  { visited := fun v => if v = c then true else s.visited v
    span_parent := fun v => if v = c then some u else s.span_parent v
    distance := fun v => if v = c then s.distance u + 1 else s.distance v }

/-- The full `for c in u.children` loop of `DCTree._bfs`: walk the
child list of the dequeued node `u`, marking each not-yet-visited
child and collecting the children enqueued, in order. -/
def scan_children (u : Nat) : TravState → List Nat → TravState × List Nat
  | s, [] => (s, [])
  | s, c :: cs =>
    if s.visited c then scan_children u s cs
    else
      let s1 := markChild s u c
      let r := scan_children u s1 cs
      (r.1, c :: r.2)

/-- The `while not q.empty()` loop of `DCTree._bfs` (src/Tree.py lines
80-88) as a fuel-indexed worklist: dequeue the head, yield it, scan
its children, append the newly marked ones to the queue.  Returns the
final traversal state, the yielded nodes in order, and the queue left
over if the fuel ran out (always `[]` for sufficient fuel, proved
below). -/
def bfs_loop (children : Nat → List Nat) :
    Nat → TravState → List Nat → TravState × List Nat × List Nat
  | _, s, [] => (s, [], [])
  | 0, s, q => (s, [], q)
  | fuel + 1, s, u :: rest =>
    let r1 := scan_children u s (children u)
    let r2 := bfs_loop children fuel r1.1 (rest ++ r1.2)
    (r2.1, u :: r2.2.1, r2.2.2)

/-- `DCTree._bfs` (src/Tree.py lines 70-88): mark the start node
visited, enqueue it, run the worklist loop. -/
def bfs (children : Nat → List Nat) (start : Nat) (s : TravState) (fuel : Nat) :
    TravState × List Nat × List Nat :=
  bfs_loop children fuel
    { s with visited := fun v => if v = start then true else s.visited v }
    [start]

/-- Reachability along child edges, the paths `DCTree._bfs` explores. -/
def Reach (children : Nat → List Nat) : Nat → Nat → Prop :=
  Relation.ReflTransGen fun a b => b ∈ children a

theorem scan_children_visited_monotone (u : Nat) (cs : List Nat) :
    ∀ (s : TravState) (v : Nat), s.visited v = true →
      (scan_children u s cs).1.visited v = true := by
  induction cs with
  | nil => intro s v h; simpa [scan_children] using h
  | cons c cs ih =>
    intro s v h
    by_cases hc : s.visited c = true
    · simpa [scan_children, hc] using ih s v h
    · have hv : (markChild s u c).visited v = true := by
        simp only [markChild]
        split <;> simp [h]
      simp only [scan_children, Bool.not_eq_true] at *
      simpa [hc] using ih (markChild s u c) v hv

theorem scan_children_newq_subset (u : Nat) (cs : List Nat) :
    ∀ (s : TravState) (v : Nat), v ∈ (scan_children u s cs).2 → v ∈ cs := by
  induction cs with
  | nil => intro s v h; simp [scan_children] at h
  | cons c cs ih =>
    intro s v h
    by_cases hc : s.visited c = true
    · simp only [scan_children, hc, if_true] at h
      exact List.mem_cons_of_mem c (ih s v h)
    · simp only [scan_children, Bool.not_eq_true] at *
      simp only [hc, Bool.false_eq_true, if_false, List.mem_cons] at h
      rcases h with rfl | h
      · exact List.mem_cons_self v cs
      · exact List.mem_cons_of_mem c (ih (markChild s u c) v h)

theorem scan_children_newq_unvisited (u : Nat) (cs : List Nat) :
    ∀ (s : TravState) (v : Nat), v ∈ (scan_children u s cs).2 →
      s.visited v = false := by
  induction cs with
  | nil => intro s v h; simp [scan_children] at h
  | cons c cs ih =>
    intro s v h
    by_cases hc : s.visited c = true
    · simp only [scan_children, hc, if_true] at h
      exact ih s v h
    · simp only [scan_children, Bool.not_eq_true] at *
      simp only [hc, Bool.false_eq_true, if_false, List.mem_cons] at h
      rcases h with rfl | h
      · exact hc
      · have := ih (markChild s u c) v h
        simp only [markChild] at this
        by_cases hvc : v = c
        · simp [hvc] at this
        · simpa [hvc] using this

theorem scan_children_visited_iff (u : Nat) (cs : List Nat) :
    ∀ (s : TravState) (v : Nat),
      (scan_children u s cs).1.visited v = true ↔
        s.visited v = true ∨ v ∈ (scan_children u s cs).2 := by
  induction cs with
  | nil => intro s v; simp [scan_children]
  | cons c cs ih =>
    intro s v
    by_cases hc : s.visited c = true
    · simp only [scan_children, hc, if_true]
      exact ih s v
    · simp only [scan_children, Bool.not_eq_true] at *
      simp only [hc, Bool.false_eq_true, if_false, List.mem_cons]
      rw [ih (markChild s u c) v]
      by_cases hvc : v = c
      · subst hvc
        simp [markChild]
      · simp [markChild, hvc]

theorem scan_children_covers (u : Nat) (cs : List Nat) :
    ∀ (s : TravState) (v : Nat), v ∈ cs →
      (scan_children u s cs).1.visited v = true := by
  induction cs with
  | nil => intro s v h; simp at h
  | cons c cs ih =>
    intro s v h
    rcases List.mem_cons.mp h with rfl | h
    · by_cases hc : s.visited v = true
      · simp only [scan_children, hc, if_true]
        exact scan_children_visited_monotone u cs s v hc
      · simp only [scan_children, Bool.not_eq_true] at *
        simp only [hc, Bool.false_eq_true, if_false]
        exact scan_children_visited_monotone u cs (markChild s u v) v
          (by simp [markChild])
    · by_cases hc : s.visited c = true
      · simp only [scan_children, hc, if_true]
        exact ih s v h
      · simp only [scan_children, Bool.not_eq_true] at *
        simp only [hc, Bool.false_eq_true, if_false]
        exact ih (markChild s u c) v h

theorem scan_children_newq_nodup (u : Nat) (cs : List Nat) :
    ∀ s : TravState, (scan_children u s cs).2.Nodup := by
  induction cs with
  | nil => intro s; simp [scan_children]
  | cons c cs ih =>
    intro s
    by_cases hc : s.visited c = true
    · simp only [scan_children, hc, if_true]
      exact ih s
    · simp only [scan_children, Bool.not_eq_true] at *
      simp only [hc, Bool.false_eq_true, if_false, List.nodup_cons]
      refine ⟨fun hmem => ?_, ih (markChild s u c)⟩
      have := scan_children_newq_unvisited u cs (markChild s u c) c hmem
      simp [markChild] at this

theorem scan_children_not_new_state (u : Nat) (cs : List Nat) :
    ∀ (s : TravState) (v : Nat), v ∉ (scan_children u s cs).2 →
      (scan_children u s cs).1.visited v = s.visited v ∧
      (scan_children u s cs).1.span_parent v = s.span_parent v ∧
      (scan_children u s cs).1.distance v = s.distance v := by
  induction cs with
  | nil => intro s v _; simp [scan_children]
  | cons c cs ih =>
    intro s v h
    by_cases hc : s.visited c = true
    · simp only [scan_children, hc, if_true] at *
      exact ih s v h
    · simp only [scan_children, Bool.not_eq_true] at *
      simp only [hc, Bool.false_eq_true, if_false, List.mem_cons, not_or] at *
      obtain ⟨hvc, hmem⟩ := h
      have := ih (markChild s u c) v hmem
      simpa [markChild, hvc] using this

theorem scan_children_span_of_new (u : Nat) (cs : List Nat) :
    ∀ (s : TravState) (v : Nat), v ∈ (scan_children u s cs).2 →
      (scan_children u s cs).1.span_parent v = some u := by
  induction cs with
  | nil => intro s v h; simp [scan_children] at h
  | cons c cs ih =>
    intro s v h
    by_cases hc : s.visited c = true
    · simp only [scan_children, hc, if_true] at *
      exact ih s v h
    · simp only [scan_children, Bool.not_eq_true] at *
      simp only [hc, Bool.false_eq_true, if_false, List.mem_cons] at h
      rcases h with rfl | h
      · by_cases hmem : v ∈ (scan_children u (markChild s u v) cs).2
        · have := scan_children_newq_unvisited u cs (markChild s u v) v hmem
          simp [markChild] at this
        · have := (scan_children_not_new_state u cs (markChild s u v) v hmem).2.1
          simp only [hc, Bool.false_eq_true, if_false]
          rw [this]
          simp [markChild]
      · simp only [hc, Bool.false_eq_true, if_false]
        exact ih (markChild s u c) v h

theorem scan_children_unvis_card (u : Nat) (cs : List Nat) (V : Finset Nat) :
    ∀ s : TravState, (∀ c ∈ cs, c ∈ V) →
      (V.filter fun v => (scan_children u s cs).1.visited v = false).card
          + (scan_children u s cs).2.length
        = (V.filter fun v => s.visited v = false).card := by
  induction cs with
  | nil => intro s _; simp [scan_children]
  | cons c cs ih =>
    intro s hcs
    have hcs' : ∀ x ∈ cs, x ∈ V := fun x hx => hcs x (List.mem_cons_of_mem c hx)
    by_cases hc : s.visited c = true
    · simp only [scan_children, hc, if_true]
      exact ih s hcs'
    · simp only [scan_children, Bool.not_eq_true] at *
      simp only [hc, Bool.false_eq_true, if_false, List.length_cons]
      have hfilter : (V.filter fun v => (markChild s u c).visited v = false)
          = (V.filter fun v => s.visited v = false).erase c := by
        ext v
        simp only [Finset.mem_filter, Finset.mem_erase, markChild]
        by_cases hvc : v = c
        · simp [hvc]
        · simp [hvc]
      have hcmem : c ∈ V.filter fun v => s.visited v = false := by
        simp [Finset.mem_filter, hcs c (List.mem_cons_self c cs), hc]
      have hpos : 1 ≤ (V.filter fun v => s.visited v = false).card :=
        Finset.card_pos.mpr ⟨c, hcmem⟩
      have := ih (markChild s u c) hcs'
      rw [hfilter, Finset.card_erase_of_mem hcmem] at this
      omega

theorem scan_children_unvisited_of (u : Nat) (cs : List Nat) (s : TravState)
    (v : Nat) (h : (scan_children u s cs).1.visited v = false) :
    s.visited v = false := by
  by_cases hs : s.visited v = true
  · rw [scan_children_visited_monotone u cs s v hs] at h
    cases h
  · simpa using hs

theorem bfs_loop_visited_monotone (children : Nat → List Nat) :
    ∀ (fuel : Nat) (s : TravState) (q : List Nat) (v : Nat), s.visited v = true →
      (bfs_loop children fuel s q).1.visited v = true := by
  intro fuel
  induction fuel with
  | zero =>
    intro s q v h
    cases q <;> simpa [bfs_loop] using h
  | succ n ih =>
    intro s q v h
    cases q with
    | nil => simpa [bfs_loop] using h
    | cons u rest =>
      simp only [bfs_loop]
      exact ih _ _ v (scan_children_visited_monotone u (children u) s v h)

theorem bfs_loop_mem_of (children : Nat → List Nat) :
    ∀ (fuel : Nat) (s : TravState) (q : List Nat) (v : Nat),
      v ∈ (bfs_loop children fuel s q).2.1 ∨ v ∈ (bfs_loop children fuel s q).2.2 →
      v ∈ q ∨ s.visited v = false := by
  intro fuel
  induction fuel with
  | zero =>
    intro s q v h
    cases q with
    | nil => simp [bfs_loop] at h
    | cons u rest =>
      simp only [bfs_loop] at h
      rcases h with h | h
      · simp at h
      · exact Or.inl h
  | succ n ih =>
    intro s q v h
    cases q with
    | nil => simp [bfs_loop] at h
    | cons u rest =>
      simp only [bfs_loop] at h
      have rec_case : v ∈ (bfs_loop children n (scan_children u s (children u)).1
            (rest ++ (scan_children u s (children u)).2)).2.1 ∨
          v ∈ (bfs_loop children n (scan_children u s (children u)).1
            (rest ++ (scan_children u s (children u)).2)).2.2 →
          v ∈ u :: rest ∨ s.visited v = false := by
        intro hrec
        rcases ih _ _ v hrec with hq | hunv
        · rcases List.mem_append.mp hq with h1 | h2
          · exact Or.inl (List.mem_cons_of_mem u h1)
          · exact Or.inr (scan_children_newq_unvisited u (children u) s v h2)
        · exact Or.inr (scan_children_unvisited_of u (children u) s v hunv)
      rcases h with h | h
      · rcases List.mem_cons.mp h with rfl | h
        · exact Or.inl (List.mem_cons_self v rest)
        · exact rec_case (Or.inl h)
      · exact rec_case (Or.inr h)

theorem bfs_loop_span_pres (children : Nat → List Nat) :
    ∀ (fuel : Nat) (s : TravState) (q : List Nat) (v : Nat), s.visited v = true →
      (bfs_loop children fuel s q).1.span_parent v = s.span_parent v := by
  intro fuel
  induction fuel with
  | zero =>
    intro s q v h
    cases q <;> simp [bfs_loop]
  | succ n ih =>
    intro s q v h
    cases q with
    | nil => simp [bfs_loop]
    | cons u rest =>
      simp only [bfs_loop]
      have hnotnew : v ∉ (scan_children u s (children u)).2 := fun hmem => by
        have := scan_children_newq_unvisited u (children u) s v hmem
        rw [h] at this
        cases this
      have hspan := (scan_children_not_new_state u (children u) s v hnotnew).2.1
      have hvis := scan_children_visited_monotone u (children u) s v h
      rw [ih _ _ v hvis, hspan]

theorem bfs_loop_nodup (children : Nat → List Nat) :
    ∀ (fuel : Nat) (s : TravState) (q : List Nat), q.Nodup →
      (∀ v ∈ q, s.visited v = true) →
      ((bfs_loop children fuel s q).2.1 ++ (bfs_loop children fuel s q).2.2).Nodup := by
  intro fuel
  induction fuel with
  | zero =>
    intro s q hq _
    cases q with
    | nil => simp [bfs_loop]
    | cons u rest => simpa [bfs_loop] using hq
  | succ n ih =>
    intro s q hq hvq
    cases q with
    | nil => simp [bfs_loop]
    | cons u rest =>
      simp only [bfs_loop]
      have hvu : s.visited u = true := hvq u (List.mem_cons_self u rest)
      have hrest_nodup : rest.Nodup := (List.nodup_cons.mp hq).2
      have hu_rest : u ∉ rest := (List.nodup_cons.mp hq).1
      have hq' : (rest ++ (scan_children u s (children u)).2).Nodup := by
        rw [List.nodup_append]
        refine ⟨hrest_nodup, scan_children_newq_nodup u (children u) s, ?_⟩
        intro v hv hv2
        have h1 : s.visited v = true := hvq v (List.mem_cons_of_mem u hv)
        have h2 := scan_children_newq_unvisited u (children u) s v hv2
        rw [h1] at h2
        cases h2
      have hvq' : ∀ v ∈ rest ++ (scan_children u s (children u)).2,
          (scan_children u s (children u)).1.visited v = true := by
        intro v hv
        rcases List.mem_append.mp hv with h | h
        · exact scan_children_visited_monotone u (children u) s v
            (hvq v (List.mem_cons_of_mem u h))
        · exact (scan_children_visited_iff u (children u) s v).mpr (Or.inr h)
      have hrec := ih _ _ hq' hvq'
      rw [List.cons_append, List.nodup_cons]
      refine ⟨fun hmem => ?_, hrec⟩
      rcases bfs_loop_mem_of children n _ _ u
          (by rcases List.mem_append.mp hmem with h | h
              · exact Or.inl h
              · exact Or.inr h) with hinq | hunv
      · rcases List.mem_append.mp hinq with h | h
        · exact hu_rest h
        · have := scan_children_newq_unvisited u (children u) s u h
          rw [hvu] at this
          cases this
      · have := scan_children_visited_monotone u (children u) s u hvu
        rw [this] at hunv
        cases hunv

theorem bfs_loop_visited_iff (children : Nat → List Nat) :
    ∀ (fuel : Nat) (s : TravState) (q : List Nat) (v : Nat),
      (bfs_loop children fuel s q).1.visited v = true ↔
        s.visited v = true ∨
          ∃ u ∈ (bfs_loop children fuel s q).2.1, v ∈ children u := by
  intro fuel
  induction fuel with
  | zero =>
    intro s q v
    cases q <;> simp [bfs_loop]
  | succ n ih =>
    intro s q v
    cases q with
    | nil => simp [bfs_loop]
    | cons u rest =>
      simp only [bfs_loop]
      rw [ih]
      rw [scan_children_visited_iff]
      constructor
      · rintro ((h | h) | ⟨w, hw, hvw⟩)
        · exact Or.inl h
        · refine Or.inr ⟨u, List.mem_cons_self u _, ?_⟩
          exact scan_children_newq_subset u (children u) s v h
        · exact Or.inr ⟨w, List.mem_cons_of_mem u hw, hvw⟩
      · rintro (h | ⟨w, hw, hvw⟩)
        · exact Or.inl (Or.inl h)
        · rcases List.mem_cons.mp hw with rfl | hw
          · rw [← scan_children_visited_iff]
            exact Or.inl (scan_children_covers w (children w) s v hvw)
          · exact Or.inr ⟨w, hw, hvw⟩

theorem bfs_loop_reach (children : Nat → List Nat) (start : Nat) :
    ∀ (fuel : Nat) (s : TravState) (q : List Nat),
      (∀ v ∈ q, Reach children start v) →
      ∀ v ∈ (bfs_loop children fuel s q).2.1, Reach children start v := by
  intro fuel
  induction fuel with
  | zero =>
    intro s q _ v hv
    cases q <;> simp [bfs_loop] at hv
  | succ n ih =>
    intro s q hq v hv
    cases q with
    | nil => simp [bfs_loop] at hv
    | cons u rest =>
      simp only [bfs_loop] at hv
      rcases List.mem_cons.mp hv with rfl | hv
      · exact hq v (List.mem_cons_self v rest)
      · refine ih _ _ ?_ v hv
        intro w hw
        rcases List.mem_append.mp hw with h | h
        · exact hq w (List.mem_cons_of_mem u h)
        · exact Relation.ReflTransGen.tail (hq u (List.mem_cons_self u rest))
            (scan_children_newq_subset u (children u) s w h)

theorem bfs_loop_q_sub_out (children : Nat → List Nat) :
    ∀ (fuel : Nat) (s : TravState) (q : List Nat),
      (bfs_loop children fuel s q).2.2 = [] →
      ∀ v ∈ q, v ∈ (bfs_loop children fuel s q).2.1 := by
  intro fuel
  induction fuel with
  | zero =>
    intro s q hrem v hv
    cases q with
    | nil => simp at hv
    | cons u rest => simp [bfs_loop] at hrem
  | succ n ih =>
    intro s q hrem v hv
    cases q with
    | nil => simp at hv
    | cons u rest =>
      simp only [bfs_loop] at hrem ⊢
      rcases List.mem_cons.mp hv with rfl | hv
      · exact List.mem_cons_self v _
      · exact List.mem_cons_of_mem u
          (ih _ _ hrem v (List.mem_append.mpr (Or.inl hv)))

theorem bfs_loop_marked_out (children : Nat → List Nat) :
    ∀ (fuel : Nat) (s : TravState) (q : List Nat),
      (bfs_loop children fuel s q).2.2 = [] →
      ∀ v, s.visited v = false → (bfs_loop children fuel s q).1.visited v = true →
        v ∈ (bfs_loop children fuel s q).2.1 := by
  intro fuel
  induction fuel with
  | zero =>
    intro s q hrem v h0 h1
    cases q with
    | nil => simp [bfs_loop] at h1; rw [h0] at h1; cases h1
    | cons u rest => simp [bfs_loop] at hrem
  | succ n ih =>
    intro s q hrem v h0 h1
    cases q with
    | nil =>
      simp [bfs_loop] at h1
      rw [h0] at h1
      cases h1
    | cons u rest =>
      simp only [bfs_loop] at hrem h1 ⊢
      by_cases hnew : v ∈ (scan_children u s (children u)).2
      · exact List.mem_cons_of_mem u
          (bfs_loop_q_sub_out children n _ _ hrem v
            (List.mem_append.mpr (Or.inr hnew)))
      · have hv1 : (scan_children u s (children u)).1.visited v = false := by
          rw [(scan_children_not_new_state u (children u) s v hnew).1, h0]
        exact List.mem_cons_of_mem u (ih _ _ hrem v hv1 h1)

theorem bfs_loop_out_visited (children : Nat → List Nat) :
    ∀ (fuel : Nat) (s : TravState) (q : List Nat),
      (∀ v ∈ q, s.visited v = true) →
      ∀ v ∈ (bfs_loop children fuel s q).2.1,
        (bfs_loop children fuel s q).1.visited v = true := by
  intro fuel
  induction fuel with
  | zero =>
    intro s q _ v hv
    cases q <;> simp [bfs_loop] at hv
  | succ n ih =>
    intro s q hvq v hv
    cases q with
    | nil => simp [bfs_loop] at hv
    | cons u rest =>
      simp only [bfs_loop] at hv ⊢
      rcases List.mem_cons.mp hv with rfl | hv
      · exact bfs_loop_visited_monotone children n _ _ v
          (scan_children_visited_monotone v (children v) s v
            (hvq v (List.mem_cons_self v rest)))
      · refine ih _ _ ?_ v hv
        intro w hw
        rcases List.mem_append.mp hw with h | h
        · exact scan_children_visited_monotone u (children u) s w
            (hvq w (List.mem_cons_of_mem u h))
        · exact (scan_children_visited_iff u (children u) s w).mpr (Or.inr h)

theorem bfs_loop_span_find (children : Nat → List Nat) :
    ∀ (fuel : Nat) (s : TravState) (q : List Nat),
      (∀ v ∈ q, s.visited v = true) →
      ∀ c, s.visited c = false →
        (bfs_loop children fuel s q).1.visited c = true →
        (bfs_loop children fuel s q).1.span_parent c =
          ((bfs_loop children fuel s q).2.1.find? fun u => (children u).contains c) := by
  intro fuel
  induction fuel with
  | zero =>
    intro s q _ c h0 h1
    cases q <;> simp [bfs_loop] at h1 <;> rw [h0] at h1 <;> cases h1
  | succ n ih =>
    intro s q hvq c h0 h1
    cases q with
    | nil =>
      simp [bfs_loop] at h1
      rw [h0] at h1
      cases h1
    | cons u rest =>
      simp only [bfs_loop] at h1 ⊢
      have hvq' : ∀ v ∈ rest ++ (scan_children u s (children u)).2,
          (scan_children u s (children u)).1.visited v = true := by
        intro w hw
        rcases List.mem_append.mp hw with h | h
        · exact scan_children_visited_monotone u (children u) s w
            (hvq w (List.mem_cons_of_mem u h))
        · exact (scan_children_visited_iff u (children u) s w).mpr (Or.inr h)
      by_cases hnew : c ∈ (scan_children u s (children u)).2
      · have hvis1 : (scan_children u s (children u)).1.visited c = true :=
          (scan_children_visited_iff u (children u) s c).mpr (Or.inr hnew)
        have hspan1 : (scan_children u s (children u)).1.span_parent c = some u :=
          scan_children_span_of_new u (children u) s c hnew
        have hchild : c ∈ children u := scan_children_newq_subset u (children u) s c hnew
        rw [bfs_loop_span_pres children n _ _ c hvis1, hspan1]
        rw [List.find?_cons_of_pos]
        simp [hchild]
      · have hstate := scan_children_not_new_state u (children u) s c hnew
        have hvis1 : (scan_children u s (children u)).1.visited c = false := by
          rw [hstate.1, h0]
        have hnotchild : c ∉ children u := by
          intro hc
          have := scan_children_covers u (children u) s c hc
          rw [hvis1] at this
          cases this
        rw [List.find?_cons_of_neg]
        · exact ih _ _ hvq' c hvis1 h1
        · simp [hnotchild]

theorem bfs_loop_rem_empty (children : Nat → List Nat) (V : Finset Nat)
    (hcl : ∀ v ∈ V, ∀ c ∈ children v, c ∈ V) :
    ∀ (fuel : Nat) (s : TravState) (q : List Nat), (∀ v ∈ q, v ∈ V) →
      2 * (V.filter fun v => s.visited v = false).card + q.length ≤ fuel →
      (bfs_loop children fuel s q).2.2 = [] := by
  intro fuel
  induction fuel with
  | zero =>
    intro s q _ hfuel
    cases q with
    | nil => simp [bfs_loop]
    | cons u rest => simp at hfuel
  | succ n ih =>
    intro s q hqV hfuel
    cases q with
    | nil => simp [bfs_loop]
    | cons u rest =>
      simp only [bfs_loop]
      have huV : u ∈ V := hqV u (List.mem_cons_self u rest)
      have hcsV : ∀ x ∈ children u, x ∈ V := hcl u huV
      have hcard := scan_children_unvis_card u (children u) V s hcsV
      have hq'V : ∀ v ∈ rest ++ (scan_children u s (children u)).2, v ∈ V := by
        intro w hw
        rcases List.mem_append.mp hw with h | h
        · exact hqV w (List.mem_cons_of_mem u h)
        · exact hcsV w (scan_children_newq_subset u (children u) s w h)
      refine ih _ _ hq'V ?_
      rw [List.length_append]
      simp only [List.length_cons] at hfuel
      omega

/-- Master correctness of the worklist loop started on `[start]` from a
state whose only visited node is `start`, over a finite child-closed
universe `V` with sufficient fuel: the queue drains, the yields are
duplicate-free, they are exactly the nodes reachable from `start`, the
final visited flags mark exactly the yielded nodes, and each yielded
node other than `start` has as spanning-tree parent the first yielded
node having it among its children. -/
theorem bfs_spec_core (children : Nat → List Nat) (V : Finset Nat) (start : Nat)
    (s0 : TravState) (fuel : Nat)
    (hs0 : ∀ v, s0.visited v = true ↔ v = start)
    (hstart : start ∈ V)
    (hcl : ∀ v ∈ V, ∀ c ∈ children v, c ∈ V)
    (hfuel : 2 * V.card + 1 ≤ fuel) :
    (bfs_loop children fuel s0 [start]).2.2 = [] ∧
    (bfs_loop children fuel s0 [start]).2.1.Nodup ∧
    (∀ v, v ∈ (bfs_loop children fuel s0 [start]).2.1 ↔ Reach children start v) ∧
    (∀ v, (bfs_loop children fuel s0 [start]).1.visited v = true ↔
      v ∈ (bfs_loop children fuel s0 [start]).2.1) ∧
    (∀ c ∈ (bfs_loop children fuel s0 [start]).2.1, c ≠ start →
      (bfs_loop children fuel s0 [start]).1.span_parent c =
        ((bfs_loop children fuel s0 [start]).2.1.find? fun u =>
          (children u).contains c)) := by
  have hunvis : ∀ v, v ≠ start → s0.visited v = false := by
    intro v hv
    cases hbv : s0.visited v with
    | false => rfl
    | true => exact absurd ((hs0 v).mp hbv) hv
  have hvq : ∀ v ∈ [start], s0.visited v = true := by
    intro v hv
    rw [List.mem_singleton] at hv
    subst hv
    exact (hs0 _).mpr rfl
  have hqV : ∀ v ∈ [start], v ∈ V := by
    intro v hv
    rw [List.mem_singleton] at hv
    subst hv
    exact hstart
  have hfilter : (V.filter fun v => s0.visited v = false) = V.erase start := by
    ext v
    simp only [Finset.mem_filter, Finset.mem_erase]
    constructor
    · rintro ⟨h1, h2⟩
      refine ⟨fun he => ?_, h1⟩
      have := (hs0 v).mpr he
      rw [h2] at this
      cases this
    · rintro ⟨hne, h1⟩
      exact ⟨h1, hunvis v hne⟩
  have hfuel2 : 2 * (V.filter fun v => s0.visited v = false).card
      + ([start] : List Nat).length ≤ fuel := by
    rw [hfilter, Finset.card_erase_of_mem hstart, List.length_singleton]
    have hVpos : 1 ≤ V.card := Finset.card_pos.mpr ⟨start, hstart⟩
    omega
  have hrem := bfs_loop_rem_empty children V hcl fuel s0 [start] hqV hfuel2
  have hnodup : (bfs_loop children fuel s0 [start]).2.1.Nodup := by
    have h := bfs_loop_nodup children fuel s0 [start] (by simp) hvq
    rw [hrem, List.append_nil] at h
    exact h
  have hmem_iff : ∀ v, v ∈ (bfs_loop children fuel s0 [start]).2.1 ↔
      Reach children start v := by
    intro v
    constructor
    · intro hv
      refine bfs_loop_reach children start fuel s0 [start] ?_ v hv
      intro w hw
      rw [List.mem_singleton] at hw
      subst hw
      exact Relation.ReflTransGen.refl
    · intro hv
      unfold Reach at hv
      induction hv with
      | refl =>
        exact bfs_loop_q_sub_out children fuel s0 [start] hrem start
          (List.mem_singleton.mpr rfl)
      | tail hab hbc ih =>
        rename_i b c
        by_cases hc : c = start
        · rw [hc]
          exact bfs_loop_q_sub_out children fuel s0 [start] hrem start
            (List.mem_singleton.mpr rfl)
        · have hvis : (bfs_loop children fuel s0 [start]).1.visited c = true :=
            (bfs_loop_visited_iff children fuel s0 [start] c).mpr
              (Or.inr ⟨b, ih, hbc⟩)
          exact bfs_loop_marked_out children fuel s0 [start] hrem c
            (hunvis c hc) hvis
  have hvis_iff : ∀ v, (bfs_loop children fuel s0 [start]).1.visited v = true ↔
      v ∈ (bfs_loop children fuel s0 [start]).2.1 := by
    intro v
    constructor
    · intro hv
      by_cases hvs : v = start
      · rw [hvs]
        exact bfs_loop_q_sub_out children fuel s0 [start] hrem start
          (List.mem_singleton.mpr rfl)
      · exact bfs_loop_marked_out children fuel s0 [start] hrem v
          (hunvis v hvs) hv
    · intro hv
      exact bfs_loop_out_visited children fuel s0 [start] hvq v hv
  refine ⟨hrem, hnodup, hmem_iff, hvis_iff, ?_⟩
  intro c hc hcs
  exact bfs_loop_span_find children fuel s0 [start] hvq c (hunvis c hcs)
    ((hvis_iff c).mpr hc)

/-- C2: traverse_breadth_first (`DCTree._bfs`) yields nodes by the
worklist algorithm — start is marked visited and enqueued, then
repeatedly a node is dequeued and yielded and each unvisited child is
marked, given the dequeued node as spanning-tree parent and its
distance + 1, and enqueued (this is `bfs`).  Consequently, for every
finite child-closed graph — every finite DAG, convergent parents
included — starting from an all-unvisited state with sufficient fuel:
every reachable node is yielded exactly once (the yields are
duplicate-free and are exactly the reachable nodes), and every yielded
node other than the start has as its spanning-tree parent the first
dequeued node having it among its children — one parent, never
both. -/
theorem bfs_yields_once_first_parent (children : Nat → List Nat) (V : Finset Nat)
    (start : Nat) (s : TravState) (fuel : Nat)
    (hs : ∀ v, s.visited v = false)
    (hstart : start ∈ V)
    (hcl : ∀ v ∈ V, ∀ c ∈ children v, c ∈ V)
    (hfuel : 2 * V.card + 1 ≤ fuel) :
    (bfs children start s fuel).2.1.Nodup ∧
    (∀ v, v ∈ (bfs children start s fuel).2.1 ↔ Reach children start v) ∧
    (∀ c ∈ (bfs children start s fuel).2.1, c ≠ start →
      (bfs children start s fuel).1.span_parent c =
        ((bfs children start s fuel).2.1.find? fun u =>
          (children u).contains c)) := by
  have hs0 : ∀ v, (({ s with
      visited := fun v => if v = start then true else s.visited v } : TravState)).visited v
        = true ↔ v = start := by
    intro v
    by_cases hv : v = start <;> simp [hv, hs v]
  have h := bfs_spec_core children V start
    { s with visited := fun v => if v = start then true else s.visited v }
    fuel hs0 hstart hcl hfuel
  exact ⟨h.2.1, h.2.2.1, h.2.2.2.2⟩

/-- A diamond-shaped DAG: node 1 has children 2 and 3, which converge
on the shared child 4. -/
def childrenW : Nat → List Nat := fun n =>
  if n = 1 then [2, 3] else if n = 2 then [4] else if n = 3 then [4] else []

/-- C2 witness: the BFS theorem at the concrete diamond DAG, where two
dequeued parents (2 and 3) converge on the shared child 4. -/
theorem bfs_yields_once_first_parent_witness :
    (bfs childrenW 1 travInit 9).2.1.Nodup ∧
    (∀ v, v ∈ (bfs childrenW 1 travInit 9).2.1 ↔ Reach childrenW 1 v) ∧
    (∀ c ∈ (bfs childrenW 1 travInit 9).2.1, c ≠ 1 →
      (bfs childrenW 1 travInit 9).1.span_parent c =
        ((bfs childrenW 1 travInit 9).2.1.find? fun u =>
          (childrenW u).contains c)) :=
  bfs_yields_once_first_parent childrenW {1, 2, 3, 4} 1 travInit 9
    (fun _ => rfl) (by decide) (by decide) (by decide)

/-- `bfs_spec_core` restated for `bfs` run from an all-unvisited
state. -/
theorem bfs_spec (children : Nat → List Nat) (V : Finset Nat) (start : Nat)
    (s : TravState) (fuel : Nat)
    (hs : ∀ v, s.visited v = false)
    (hstart : start ∈ V)
    (hcl : ∀ v ∈ V, ∀ c ∈ children v, c ∈ V)
    (hfuel : 2 * V.card + 1 ≤ fuel) :
    (bfs children start s fuel).2.2 = [] ∧
    (bfs children start s fuel).2.1.Nodup ∧
    (∀ v, v ∈ (bfs children start s fuel).2.1 ↔ Reach children start v) ∧
    (∀ v, (bfs children start s fuel).1.visited v = true ↔
      v ∈ (bfs children start s fuel).2.1) ∧
    (∀ c ∈ (bfs children start s fuel).2.1, c ≠ start →
      (bfs children start s fuel).1.span_parent c =
        ((bfs children start s fuel).2.1.find? fun u =>
          (children u).contains c)) := by
  have hs0 : ∀ v, (({ s with
      visited := fun v => if v = start then true else s.visited v } : TravState)).visited v
        = true ↔ v = start := by
    intro v
    by_cases hv : v = start <;> simp [hv, hs v]
  exact bfs_spec_core children V start
    { s with visited := fun v => if v = start then true else s.visited v }
    fuel hs0 hstart hcl hfuel

/-- The cached structure of a `DCTree` (src/Tree.py lines 55-68): the
root id, the derived node and leaf lists, and the traversal state of
all nodes. -/
structure DCTreeS where
  root : Nat
  nodes : List Nat
  leaf : List Nat
  trav : TravState

/-- `DCTree.update_struct` (src/Tree.py lines 109-122): default the
traversal root to the tree's root, reset the visited flag of every
currently known node (`for n in self.nodes: n.visited = False`), then
run `_bfs` and append every yielded node to `self.nodes` and every
yielded leaf (empty child list) to `self.leaf`.  The source never
clears the two lists before appending. -/
def update_struct (children : Nat → List Nat) (fuel : Nat) (t : DCTreeS)
    (root_ : Option Nat) : DCTreeS :=
  let r := root_.getD t.root
  let s0 : TravState :=
    { t.trav with
      visited := fun v => if v ∈ t.nodes then false else t.trav.visited v }
  let res := bfs children r s0 fuel
  { root := t.root
    nodes := t.nodes ++ res.2.1
    leaf := t.leaf ++ res.2.1.filter fun n => (children n).isEmpty
    trav := res.1 }

/-- The graph with no edges: every node is a leaf. -/
def children0 : Nat → List Nat := fun _ => []

/-- C3: repeated refresh is NOT stable — code bug.  `update_struct`
appends the traversal's yields to `self.nodes` and `self.leaf` without
clearing them first, so a second call on an unmodified single-node
tree leaves each list holding the root twice, not once. -/
theorem update_struct_second_call_duplicates :
    (update_struct children0 5
        (update_struct children0 5
          { root := 1, nodes := [], leaf := [], trav := travInit } none) none).nodes
      = [1, 1] ∧
    (update_struct children0 5
        (update_struct children0 5
          { root := 1, nodes := [], leaf := [], trav := travInit } none) none).leaf
      = [1, 1] := by
  constructor <;> rfl

/-- C4 counterexample: immediately after refresh (`update_struct`)
returns on a fresh single-node tree, the root is a known node of the
hierarchy and its visited flag is true, not false — the reset happens
at the start of the call, before traversal, and the traversal then
sets the flag of every yielded node. -/
theorem update_struct_visited_claim_cex :
    1 ∈ (update_struct children0 5
        { root := 1, nodes := [], leaf := [], trav := travInit } none).nodes ∧
    (update_struct children0 5
        { root := 1, nodes := [], leaf := [], trav := travInit } none).trav.visited 1
      = true := by
  constructor
  · simp [update_struct, bfs, bfs_loop, scan_children, children0]
  · rfl

/-- C4 (amended): `update_struct` resets the visited flag of every
previously known node to false before traversing, so no stale
traversal state leaks into the traversal; immediately after it
returns, the nodes whose visited flag is true are exactly the nodes
reachable from the traversal root (rather than all flags being
false). -/
theorem update_struct_visited_amended (children : Nat → List Nat) (fuel : Nat)
    (t : DCTreeS) (V : Finset Nat)
    (hknown : ∀ v, t.trav.visited v = true → v ∈ t.nodes)
    (hroot : t.root ∈ V)
    (hcl : ∀ v ∈ V, ∀ c ∈ children v, c ∈ V)
    (hfuel : 2 * V.card + 1 ≤ fuel) :
    ∀ v, (update_struct children fuel t none).trav.visited v = true ↔
      Reach children t.root v := by
  intro v
  have hall : ∀ w, (({ t.trav with
      visited := fun w => if w ∈ t.nodes then false else t.trav.visited w } :
        TravState)).visited w = false := by
    intro w
    by_cases hw : w ∈ t.nodes
    · simp [hw]
    · simp only [hw, if_false]
      cases hbw : t.trav.visited w with
      | false => rfl
      | true => exact absurd (hknown w hbw) hw
  have h := bfs_spec children V t.root
    { t.trav with
      visited := fun w => if w ∈ t.nodes then false else t.trav.visited w }
    fuel hall hroot hcl hfuel
  exact Iff.trans (h.2.2.2.1 v) (h.2.2.1 v)

/-- C4 witness: the amended theorem at the fresh single-node tree,
specialised to the root node. -/
theorem update_struct_visited_amended_witness :
    (update_struct children0 5
        { root := 1, nodes := [], leaf := [], trav := travInit } none).trav.visited 1
      = true ↔ Reach children0 1 1 :=
  update_struct_visited_amended children0 5
    { root := 1, nodes := [], leaf := [], trav := travInit } {1}
    (fun v hv => absurd hv (by simp [travInit])) (by decide) (by decide)
    (by decide) 1

/-! ## Inventory builder (src/Monitor.py, `_build_dc_tree`) -/

/-- The inventory object a tree node wraps: the datacenter, a host
system, a compute resource (cluster) or a virtual machine; the
non-datacenter objects carry a name. -/
inductive VimVal where
  | dcVal
  | hostVal (name : Nat)
  | crVal (name : Nat)
  | vmVal (name : Nat)
deriving Repr, DecidableEq

/-- A host-or-compute-resource resolved from the host folder: a bare
`vim.HostSystem` with the vms running on it, or a
`vim.ComputeResource` with its member hosts and their vms. -/
inductive HCR where
  | host (name : Nat) (vms : List Nat)
  | cr (name : Nat) (hosts : List (Nat × List Nat))
deriving Repr, DecidableEq

/-- An entry of a `hostFolder`: a nested `vim.Folder` (it has
`childEntity`) or a managed object. -/
inductive FolderItem where
  | folder (childEntity : List FolderItem)
  | obj (o : HCR)

mutual
/-- `Monitor.get_child_objects` (src/Monitor.py lines 97-112): flatten
a folder recursively into its non-folder objects, in order. -/
def get_child_objects : FolderItem → List HCR
  | .folder cs => get_child_objects_list cs
  | .obj o => [o]

/-- The `for folder_or_object in folder_or_object.childEntity`
recursion of `get_child_objects` over a folder's entries. -/
def get_child_objects_list : List FolderItem → List HCR
  | [] => []
  | f :: fs => get_child_objects f ++ get_child_objects_list fs
end

/-- The constructor fields of a `Node` (src/Tree.py lines 7-23):
parents, value, children. -/
structure NodeRec where
  parents : List Nat
  value : VimVal
  children : List Nat
deriving Repr, DecidableEq

/-- The `Node` objects created so far, keyed by id, with the
class-level auto-increment counter `Node.global_id` (initially 1). -/
structure BuildSt where
  global_id : Nat
  store : List (Nat × NodeRec)
deriving Repr, DecidableEq

/-- `Node(parents, value, [])` (src/Tree.py lines 7-18): take the
current `Node.global_id` as the node's id, increment the counter,
record the node. -/
def create_node (st : BuildSt) (parents : List Nat) (v : VimVal) : BuildSt × Nat :=
  ({ global_id := st.global_id + 1
     store := st.store ++ [(st.global_id, ⟨parents, v, []⟩)] }, st.global_id)

/-- The `.children.append(child)` mutation on the node with id `p`. -/
def append_child (st : BuildSt) (p c : Nat) : BuildSt :=
  { st with
    store := st.store.map fun e =>
      if e.1 = p then (e.1, { e.2 with children := e.2.children ++ [c] }) else e }

/-- The `for vm in host.vm` loops of `_build_dc_tree`: one vm Node per
virtual machine running on the host, parented by the host's node. -/
def attach_vms (st : BuildSt) (hostId : Nat) (vms : List Nat) : BuildSt :=
  vms.foldl
    (fun st1 vm =>
      let r := create_node st1 [hostId] (.vmVal vm)
      append_child r.1 hostId r.2)
    st

/-- `Monitor._build_dc_tree` (src/Monitor.py lines 114-137): create a
root Node for the datacenter; for each resolved host-or-cluster create
a child Node under root; under a bare host attach one Node per vm;
under a compute resource attach one Node per member host and under
each such host one Node per vm (parented by the host node, not the
compute resource).  Returns the final store and the root id. -/
def build_dc_tree (hostFolder : FolderItem) : BuildSt × Nat :=
  let r0 := create_node { global_id := 1, store := [] } [] .dcVal
  let rootId := r0.2
  let st2 := (get_child_objects hostFolder).foldl
    (fun st h_cr =>
      match h_cr with
      | .host name vms =>
        let rA := create_node st [rootId] (.hostVal name)
        let stB := append_child rA.1 rootId rA.2
        attach_vms stB rA.2 vms
      | .cr name hosts =>
        let rA := create_node st [rootId] (.crVal name)
        let stB := append_child rA.1 rootId rA.2
        hosts.foldl
          (fun stC hp =>
            let rC := create_node stC [rA.2] (.hostVal hp.1)
            let stD := append_child rC.1 rA.2 rC.2
            attach_vms stD rC.2 hp.2)
          stB)
    r0.1
  (st2, rootId)

/-- The child edges recorded in a built store. -/
def store_children (store : List (Nat × NodeRec)) : Nat → List Nat :=
  fun n => ((store.lookup n).map NodeRec.children).getD []

/-- The parent list recorded for a node of a built store. -/
def store_parents (store : List (Nat × NodeRec)) (n : Nat) : Option (List Nat) :=
  (store.lookup n).map NodeRec.parents

/-- The wrapped inventory object of a node of a built store. -/
def store_value (store : List (Nat × NodeRec)) (n : Nat) : Option VimVal :=
  (store.lookup n).map NodeRec.value

/-- The spec's end-to-end inventory: a datacenter whose host folder
holds one cluster (name 100) containing two hosts (101, 102) each
running one virtual machine (201, 202), plus one bare host (103) with
zero virtual machines. -/
def scenarioFolder : FolderItem :=
  .folder [.obj (.cr 100 [(101, [201]), (102, [202])]), .obj (.host 103 [])]

/-- The store and root id `_build_dc_tree` produces on the scenario. -/
def scenarioBuild : BuildSt × Nat := build_dc_tree scenarioFolder

/-- The hierarchy `DCTree(root)` derives for the scenario: nodes and
leaves computed by `update_struct` from empty lists and a fresh
traversal state. -/
def scenarioTree : DCTreeS :=
  update_struct (store_children scenarioBuild.1.store) 20
    { root := scenarioBuild.2, nodes := [], leaf := [], trav := travInit } none

/-- C6: the inventory builder wires containment as claimed — the root
node wraps the datacenter; each resolved host-or-cluster is a child of
the root; a bare host gets one child node per virtual machine; a
compute resource gets one child node per member host, and each member
host one child node per virtual machine, parented by the host node
(not the compute resource).  On the spec's scenario (one cluster with
two hosts running one vm each, plus one bare host with no vms) the
derived hierarchy has exactly 7 nodes and exactly 3 leaves: the two
vms and the bare host. -/
theorem build_dc_tree_scenario :
    scenarioTree.nodes.length = 7 ∧
    scenarioTree.leaf.length = 3 ∧
    scenarioTree.nodes = [1, 2, 7, 3, 5, 4, 6] ∧
    scenarioTree.leaf = [7, 4, 6] ∧
    scenarioTree.leaf.map (store_value scenarioBuild.1.store)
      = [some (.hostVal 103), some (.vmVal 201), some (.vmVal 202)] ∧
    store_value scenarioBuild.1.store 1 = some .dcVal ∧
    store_children scenarioBuild.1.store 1 = [2, 7] ∧
    store_parents scenarioBuild.1.store 2 = some [1] ∧
    store_children scenarioBuild.1.store 2 = [3, 5] ∧
    store_parents scenarioBuild.1.store 3 = some [2] ∧
    store_parents scenarioBuild.1.store 4 = some [3] ∧
    store_parents scenarioBuild.1.store 7 = some [1] :=
  ⟨rfl, rfl, rfl, rfl, rfl, rfl, rfl, rfl, rfl, rfl, rfl, rfl⟩
